import Mathlib

/-!
Shallow embedding of the turn engine and game-lifecycle state machine of the
cards-against-formality backend (services/games-service: `turn.ts` and
`game.ts`, second revision — the one taking a persisted `GameInterface`
snapshot as argument).

JavaScript objects with string keys preserve insertion order, so the
`players` map and the `selectedCards` map are embedded as association lists
in insertion order; `Object.values` / `Object.keys` are the corresponding
projections.  `Math.random`-driven indices are passed in explicitly as
parameters (`getRandomIndex(n-1)` produces an integer in `[0, n-1]` for a
pool of length `n`).  Hands may contain `undefined` after the engine reads
past the end of an array, so a hand is a `List (Option String)`; a real card
id is `some id`.  Broker calls that persist state are embedded as the pure
state they persist; broker calls that resolve card ids (`cards.get`) are
abstracted as a resolution function passed in.
-/

/-- `GameState` enum of `turn.ts` (the source spells the last value `ENEDED = 'ended'`). -/
inductive GameState where
  | turnSetup
  | pickingCards
  | selectingWinner
  | ended
deriving DecidableEq

/-- `Card` of `turn.ts`: `pick` is present on black cards only. -/
structure Card where
  _id : String
  text : String
  cardType : String
  pick : Option Nat
deriving DecidableEq

/-- `GamePlayer` of `game.ts`.  `cards` is the hand; the JS engine can push
`undefined` into it (reading past the end of the white pool), hence
`Option String` entries. -/
structure GamePlayer where
  _id : String
  score : Nat
  isCzar : Bool
  cards : List (Option String)
deriving DecidableEq

/-- `TurnData` of `turn.ts`. -/
structure TurnData where
  czar : Option String
  blackCard : Option Card
  turn : Nat
deriving DecidableEq

/-- The fragment of `TurnDataWithState` that the engine itself reads back
(`pickCzar` reads `prevTurn.czar` from the turns history). -/
structure TurnRec where
  czar : Option String
  turn : Nat
  state : GameState
  winner : Option String
  errorMessage : Option String
deriving DecidableEq

/-- `GameInterface` of `game.ts` (second revision): the persisted game
document.  `target` is `room.options.target`. -/
structure GameInterface where
  _id : String
  players : List GamePlayer
  gameState : GameState
  turns : List TurnRec
  whiteCards : List String
  blackCards : List String
  turnData : TurnData
  selectedCards : List (String × List String)
  target : Nat
deriving DecidableEq

/-- `TurnHandler.pickWhiteCard` of `turn.ts`:
`whiteCards.splice(index, 1); return whiteCards[index];` — the splice removes
the element at `index` FIRST, then the read happens on the already-shrunk
array, so the returned id is the element that originally sat at `index + 1`
(or `undefined` when `index` was the last position). -/
def pickWhiteCard (whiteCards : List String) (index : Nat) :
    List String × Option String :=
  let rest := whiteCards.eraseIdx index
  (rest, rest[index]?)

/-- `TurnHandler.pickBlackCard` of `turn.ts`: same splice-then-read shape as
`pickWhiteCard`; the returned id is then resolved via `cards.get`. -/
def pickBlackCard (blackCards : List String) (index : Nat) :
    List String × Option String :=
  let rest := blackCards.eraseIdx index
  (rest, rest[index]?)

/-- The `while (player.cards?.length !== 10)` loop body of
`TurnHandler.dealWhiteCards`, unrolled on the number of pushes still needed
(each iteration pushes exactly one entry, so for a hand of size ≤ 10 the JS
loop runs exactly `10 - hand.length` times).  `idxs` supplies the successive
`getRandomIndex` results. -/
def dealLoop : Nat → List (Option String) → List String → List Nat →
    List (Option String) × List String
  | 0, hand, pool, _ => (hand, pool)
  | Nat.succ n, hand, pool, idxs =>
      let picked := pickWhiteCard pool (idxs.headD 0)
      dealLoop n (hand ++ [picked.2]) picked.1 idxs.tail

/-- `TurnHandler.dealWhiteCards` of `turn.ts`: tops the hand up to length 10
(early-returning when no cards are needed), mutating the white pool by
reference.  The trailing `emitCardsToPlayer` broker emission carries no
state. -/
def dealWhiteCards (player : GamePlayer) (whiteCards : List String)
    (idxs : List Nat) : GamePlayer × List String :=
  let cardsNeeded := 10 - player.cards.length
  if cardsNeeded = 0 then (player, whiteCards)
  else
    let res := dealLoop cardsNeeded player.cards whiteCards idxs
    ({ player with cards := res.1 }, res.2)

/-- `TurnHandler.hasEveryoneSelected` of `turn.ts`:
`Object.keys(players).every(player => player in selectedCards || turnData.czar === player)`. -/
def hasEveryoneSelected (game : GameInterface) : Bool :=
  game.players.all fun p =>
    (game.selectedCards.find? fun e => e.1 = p._id).isSome
      || game.turnData.czar = some p._id

/-- `TurnHandler.submitCards` of `turn.ts`.  The three `throw`s precede the
`games.update` call, so a rejection persists nothing; the update writes
`players.<id>.cards = newCards` and `selectedCards.<id> = cards` (a fresh key
appended in insertion order).  A `clientId` absent from `players` makes the
JS read `players[clientId].cards` throw a `TypeError`, embedded as an
error. -/
def submitCards (game : GameInterface) (clientId : String)
    (cards : List String) : Except String GameInterface :=
  if game.turnData.czar = some clientId then
    Except.error "The czar is not allowed to play the round."
  else if (game.selectedCards.find? fun e => e.1 = clientId).isSome then
    Except.error "You have already submitted your cards."
  else if ¬ (game.turnData.blackCard.bind Card.pick) = some cards.length then
    Except.error "You must select exactly the required number of cards."
  else
    match game.players.find? fun p => p._id = clientId with
    | none => Except.error "TypeError: cannot read cards of undefined"
    | some player =>
        let newCards := player.cards.filter fun c => ¬ cards.any fun x => some x = c
        Except.ok { game with
          players := game.players.map fun p =>
            if p._id = clientId then { p with cards := newCards } else p,
          selectedCards := game.selectedCards ++ [(clientId, cards)] }

/-- `Game.onHandSubmitted` of `game.ts` (second revision): rejects outside
`PICKING_CARDS`, otherwise delegates to `submitCards` and reports whether
`hasEveryoneSelected` now triggers `handleWinnerSelection`. -/
def onHandSubmitted (game : GameInterface) (playerId : String)
    (whiteCards : List String) : Except String (GameInterface × Bool) :=
  if ¬ game.gameState = GameState.pickingCards then
    Except.error "Not allowed to select cards at this time"
  else
    (submitCards game playerId whiteCards).map fun ug =>
      (ug, hasEveryoneSelected ug)

/-- The `prevCzar` computation at the head of `TurnHandler.pickCzar`: the
czar of the last entry of the turns history, when any. -/
def prevCzarOf (turns : List TurnRec) : Option String :=
  match turns.getLast? with
  | none => none
  | some prevTurn => prevTurn.czar

/-- The index arithmetic of `TurnHandler.pickCzar`: with no previous czar the
index is `0`; otherwise `findIndex + 1`, wrapping to `0` when that overspills
the array (JS `findIndex` returns `-1` when the previous czar left, making
the new index `0` as well; `List.findIdx` returns the length there, which the
overspill test also sends to `0`). -/
def newCzarIdx (players : List GamePlayer) (prevCzar : Option String) : Nat :=
  match prevCzar with
  | none => 0
  | some pc =>
      let indexOfLastCzar := players.findIdx fun p => p._id = pc
      let indexOfNewCzar := indexOfLastCzar + 1
      if indexOfNewCzar + 1 > players.length then 0 else indexOfNewCzar

/-- `TurnHandler.pickCzar` of `turn.ts`: selects the new czar from the
players in insertion order, mutates that player's `isCzar` to `true` by
reference, and returns its id.  (On an empty player array the JS crashes
reading `undefined.isCzar`; embedded as the unchanged list and no id.) -/
def pickCzar (turns : List TurnRec) (players : List GamePlayer) :
    List GamePlayer × Option String :=
  let i := newCzarIdx players (prevCzarOf turns)
  match players[i]? with
  | some selectedPlayer =>
      (players.set i { selectedPlayer with isCzar := true }, some selectedPlayer._id)
  | none => (players, none)

/-- `TurnHandler.ensurePlayersHaveCards` of `turn.ts`: deals every player in
insertion order from the shared white pool (the picks inside
`dealWhiteCards` are synchronous, so the promises consume the pool in
sequence). -/
def ensurePlayersHaveCards :
    List GamePlayer → List String → List (List Nat) → List GamePlayer × List String
  | [], pool, _ => ([], pool)
  | p :: ps, pool, idxss =>
      let d := dealWhiteCards p pool (idxss.headD [])
      let rest := ensurePlayersHaveCards ps d.2 idxss.tail
      (d.1 :: rest.1, rest.2)

/-- `TurnHandler.startTurn` of `turn.ts`: resets all `isCzar` flags, bumps the
turn counter, picks the czar, draws the black card, tops up every hand, and
persists `selectedCards = {}` together with the mutated players and pools;
the emitted snapshot carries `state: PICKING_CARDS`, which `onTurnUpdated`
persists into `gameState`.  `resolve` abstracts `cards.get`; `bIdx` is the
black-pool random index and `idxss` the per-player white-pool indices. -/
def startTurn (game : GameInterface) (resolve : String → Card) (bIdx : Nat)
    (idxss : List (List Nat)) : GameInterface :=
  let playersReset := game.players.map fun p => { p with isCzar := false }
  let pc := pickCzar game.turns playersReset
  let bdraw := pickBlackCard game.blackCards bIdx
  let dealt := ensurePlayersHaveCards pc.1 game.whiteCards idxss
  { game with
      players := dealt.1,
      whiteCards := dealt.2,
      blackCards := bdraw.1,
      turnData :=
        { czar := pc.2, blackCard := bdraw.2.map resolve,
          turn := game.turnData.turn + 1 },
      selectedCards := [],
      gameState := GameState.pickingCards }

/-- One full round as the engine iterates it: `startTurn` followed by the
append of the round's `TurnDataWithState` to the turns history, which is what
both `onWinnerSelected` and `handleNoWinner` do when the round ends
(`turns.push(gameData)` with `gameData.czar = turnData.czar`). -/
def roundStep (game : GameInterface) (resolve : String → Card) (bIdx : Nat)
    (idxss : List (List Nat)) : GameInterface :=
  let st := startTurn game resolve bIdx idxss
  { st with
      turns := st.turns ++
        [{ czar := st.turnData.czar, turn := st.turnData.turn,
           state := GameState.turnSetup, winner := none, errorMessage := none }] }

/-- `n` consecutive completed rounds starting from `game`. -/
def roundsFrom (game : GameInterface) (resolve : String → Card) (bIdx : Nat)
    (idxss : List (List Nat)) : Nat → GameInterface
  | 0 => game
  | n + 1 => roundStep (roundsFrom game resolve bIdx idxss n) resolve bIdx idxss

/-- The czar picked at the start of round `n` (0-based). -/
def czarOfRound (game : GameInterface) (resolve : String → Card) (bIdx : Nat)
    (idxss : List (List Nat)) (n : Nat) : Option String :=
  (startTurn (roundsFrom game resolve bIdx idxss n) resolve bIdx idxss).turnData.czar

/-- The winner-tally fold of `Game.endGame` in `game.ts`: strictly larger
score takes all the glory, equal score shares it. -/
def tallyWinners (players : List GamePlayer) : List String × Nat :=
  players.foldl
    (fun winners p =>
      if winners.2 < p.score then ([p._id], p.score)
      else if p.score = winners.2 then (winners.1 ++ [p._id], winners.2)
      else winners)
    ([], 0)

/-- The maximum score over all players (`0` for no players); spec-side
abbreviation used to compare `tallyWinners` with the specified winner set. -/
def maxScore (players : List GamePlayer) : Nat :=
  players.foldl (fun m p => max m p.score) 0

/-- The state `Game.endGame` emits: `state: ENEDED` with the tallied winner
ids (the room is then marked finished). -/
structure EndGameData where
  players : List GamePlayer
  winner : List String
  state : GameState
deriving DecidableEq

/-- `Game.endGame` of `game.ts` (second revision). -/
def endGame (game : GameInterface) : EndGameData :=
  { players := game.players,
    winner := (tallyWinners game.players).1,
    state := GameState.ended }

/-- `Game.handleNextTurn` of `game.ts` (second revision): on entering
turn-setup, if any player reached `room.options.target` the game ends;
otherwise the `isCzar` flags are reset and `startTurn` runs the next
round. -/
def handleNextTurn (game : GameInterface) (resolve : String → Card) (bIdx : Nat)
    (idxss : List (List Nat)) : EndGameData ⊕ GameInterface :=
  if game.players.any fun p => game.target ≤ p.score then
    Sum.inl (endGame game)
  else
    Sum.inr (startTurn
      { game with players := game.players.map fun p => { p with isCzar := false } }
      resolve bIdx idxss)

/-- `TurnHandler.selectWinner` of `turn.ts`: reads `selectedCards[winner]`
(no membership check — absent winner yields `undefined`) and resolves the ids
via `cards.get`, which preserves their order; embedded as the stored id
list. -/
def selectWinner (selectedCards : List (String × List String)) (winner : String) :
    Option (List String) :=
  (selectedCards.find? fun e => e.1 = winner).map fun e => e.2

/-- The state `Game.onWinnerSelected` persists and emits: bumped players,
extended turns history, the winning submission and `state: TURN_SETUP`. -/
structure WinnerResult where
  players : List GamePlayer
  turns : List TurnRec
  winner : String
  winningCards : Option (List String)
  state : GameState
deriving DecidableEq

/-- `Game.onWinnerSelected` of `game.ts` (second revision): rejects a
non-czar caller, rejects outside `SELECTING_WINNER` (both `throw`s precede
every mutation), then reads the winning submission, bumps the winner's score
only `if (winningPlayer)` exists, appends the round snapshot to `turns`, and
persists; the emitted `state: TURN_SETUP` is persisted by `onTurnUpdated`. -/
def onWinnerSelected (game : GameInterface) (winner clientId : String) :
    Except String WinnerResult :=
  if ¬ game.turnData.czar = some clientId then
    Except.error "Only the czar is allowed to select the winner"
  else if ¬ game.gameState = GameState.selectingWinner then
    Except.error "This is not the correct round to select a winner"
  else
    let winningCards := selectWinner game.selectedCards winner
    let players := game.players.map fun p =>
      if p._id = winner then { p with score := p.score + 1 } else p
    let gameData : TurnRec :=
      { czar := game.turnData.czar, turn := game.turnData.turn,
        state := GameState.turnSetup, winner := some winner, errorMessage := none }
    Except.ok
      { players := players, turns := game.turns ++ [gameData], winner := winner,
        winningCards := winningCards, state := GameState.turnSetup }

/-- `Game.handleNoWinner` of `game.ts` (second revision): unconditionally
appends a `TURN_SETUP` snapshot (with the error message) to the turns
history and persists it — there is no check of the current `gameState`; the
emitted `state: TURN_SETUP` is persisted by `onTurnUpdated`. -/
def handleNoWinner (game : GameInterface) (reason : Option String) : GameInterface :=
  let errorMessage := match reason with
    | some r => if r.length ≠ 0 then r else "No one selected any cards. Everyone loses!"
    | none => "No one selected any cards. Everyone loses!"
  let gameData : TurnRec :=
    { czar := game.turnData.czar, turn := game.turnData.turn,
      state := GameState.turnSetup, winner := none,
      errorMessage := some errorMessage }
  { game with turns := game.turns ++ [gameData], gameState := GameState.turnSetup }

/-- The fired callback of `Game.setGameTimeout` of `game.ts` (second
revision): `games.get` re-fetches the current persisted game and hands it to
the armed handler — no captured snapshot is used. -/
def setGameTimeoutFire (fetch : String → GameInterface) (gameId : String)
    (cb : GameInterface → GameInterface) : GameInterface :=
  cb (fetch gameId)

/-- C1. Card conservation fails in `pickWhiteCard`: on pool `["a", "b"]` with
random index `0`, the id removed from the pool is `"a"` but the id dealt is
`"b"`, and `"b"` remains in the pool.  Moreover the same id can be dealt
twice: from pool `["a", "b", "x", "c"]`, the pick at index `1` deals `"x"`
while leaving `"x"` in the pool, and the following pick at index `0` deals
`"x"` again. -/
theorem c1_pick_deals_unremoved_card :
    pickWhiteCard ["a", "b"] 0 = (["b"], some "b")
    ∧ ("b" ∈ (pickWhiteCard ["a", "b"] 0).1
        ∧ "a" ∉ (pickWhiteCard ["a", "b"] 0).1)
    ∧ pickWhiteCard ["a", "b", "x", "c"] 1 = (["a", "x", "c"], some "x")
    ∧ pickWhiteCard ["a", "x", "c"] 0 = (["x", "c"], some "x") := by
  decide

/-- C3. `pickBlackCard` removes one id but assigns the card resolved from the
NEXT id: on pool `["b1", "b2"]` with index `0` the removed id is `"b1"` while
the id sent to `cards.get` is `"b2"` (still in the pool).  On an empty pool it
raises no `CardsExhausted` error: it returns the unchanged empty pool and an
`undefined` id, with which `startTurn` proceeds. -/
theorem c3_black_draw_mismatch :
    pickBlackCard ["b1", "b2"] 0 = (["b2"], some "b2")
    ∧ pickBlackCard [] 0 = ([], none) := by
  decide

/-- C8. `dealWhiteCards` on an exhausted pool raises no error: a player
holding 9 cards dealt from the empty pool ends with a 10-entry hand whose
last entry is `undefined` (a non-card entry). -/
theorem c8_deal_pads_with_undefined :
    dealWhiteCards
      ⟨"p1", 0, false,
        [some "c1", some "c2", some "c3", some "c4", some "c5",
         some "c6", some "c7", some "c8", some "c9"]⟩ [] [0]
      = (⟨"p1", 0, false,
          [some "c1", some "c2", some "c3", some "c4", some "c5",
           some "c6", some "c7", some "c8", some "c9", none]⟩, []) := by
  decide

/-- C9. Round completion: `hasEveryoneSelected` returns `true` iff every
player id in the players map other than `turnData.czar` has an entry in
`selectedCards`. -/
theorem c9_everyone_selected_iff (game : GameInterface) :
    hasEveryoneSelected game = true ↔
      ∀ p ∈ game.players, game.turnData.czar ≠ some p._id →
        ∃ e ∈ game.selectedCards, e.1 = p._id := by
  simp only [hasEveryoneSelected, List.all_eq_true, Bool.or_eq_true,
    List.find?_isSome, decide_eq_true_eq]
  constructor
  · intro h p hp hne
    rcases h p hp with h1 | h2
    · rcases h1 with ⟨e, he, hid⟩
      exact ⟨e, he, hid⟩
    · exact absurd h2 hne
  · intro h p hp
    by_cases hc : game.turnData.czar = some p._id
    · exact Or.inr hc
    · rcases h p hp hc with ⟨e, he, hid⟩
      exact Or.inl ⟨e, he, hid⟩

/-- C5. Submission validation and atomicity: `submitCards` rejects a
submission by the czar, a second submission by the same player, and a
submission whose length differs from `blackCard.pick` (each `throw` precedes
the persisting `games.update` call, so no state is mutated on rejection);
otherwise it removes the submitted ids from the player's hand and appends
them under `selectedCards[clientId]`. -/
theorem c5_submission_validation (game : GameInterface) (clientId : String)
    (cards : List String) (player : GamePlayer)
    (hczar : ¬ game.turnData.czar = some clientId)
    (hnew : (game.selectedCards.find? fun e => e.1 = clientId).isSome = false)
    (hpick : game.turnData.blackCard.bind Card.pick = some cards.length)
    (hpl : game.players.find? (fun p => p._id = clientId) = some player) :
    (∀ g : GameInterface, ∀ c : String, ∀ cs : List String,
        g.turnData.czar = some c →
        submitCards g c cs = Except.error "The czar is not allowed to play the round.")
    ∧ (∀ g : GameInterface, ∀ c : String, ∀ cs : List String,
        ¬ g.turnData.czar = some c →
        (g.selectedCards.find? fun e => e.1 = c).isSome = true →
        submitCards g c cs = Except.error "You have already submitted your cards.")
    ∧ (∀ g : GameInterface, ∀ c : String, ∀ cs : List String,
        ¬ g.turnData.czar = some c →
        (g.selectedCards.find? fun e => e.1 = c).isSome = false →
        ¬ g.turnData.blackCard.bind Card.pick = some cs.length →
        submitCards g c cs = Except.error "You must select exactly the required number of cards.")
    ∧ submitCards game clientId cards = Except.ok { game with
        players := game.players.map fun p =>
          if p._id = clientId then
            { p with cards := player.cards.filter fun c => ¬ cards.any fun x => some x = c }
          else p,
        selectedCards := game.selectedCards ++ [(clientId, cards)] } := by
  refine ⟨?_, ?_, ?_, ?_⟩
  · intro g c cs hc
    simp [submitCards, hc]
  · intro g c cs hc hsub
    simp [submitCards, hc, hsub]
  · intro g c cs hc hsub hlen
    simp [submitCards, hc, hsub, hlen]
  · simp [submitCards, hczar, hnew, hpick, hpl]

/-- Witness for C5 at a concrete game: czar `"judge"`, player `"alice"`
holding three cards submits two against a pick-2 black card. -/
theorem c5_submission_validation_witness :
    (let bc : Card := ⟨"b1", "prompt", "black", some 2⟩
     let judge : GamePlayer := ⟨"judge", 0, true, []⟩
     let alice : GamePlayer := ⟨"alice", 0, false, [some "w1", some "w2", some "w3"]⟩
     let g : GameInterface :=
       ⟨"g1", [judge, alice], GameState.pickingCards, [], ["w9"], ["b9"],
        ⟨some "judge", some bc, 1⟩, [], 5⟩
     submitCards g "alice" ["w1", "w3"] = Except.ok { g with
        players := g.players.map fun p =>
          if p._id = "alice" then
            { p with cards := alice.cards.filter fun c =>
                ¬ ["w1", "w3"].any fun x => some x = c }
          else p,
        selectedCards := g.selectedCards ++ [("alice", ["w1", "w3"])] }) :=
  (c5_submission_validation _ "alice" ["w1", "w3"] _
    (by decide) (by decide) (by decide) (by decide)).2.2.2

/-- The initial accumulator of a max-fold is a lower bound of the result. -/
theorem foldl_max_le_init (ps : List GamePlayer) :
    ∀ m : Nat, m ≤ ps.foldl (fun a p => max a p.score) m := by
  induction ps with
  | nil => intro m; simp
  | cons p rest ih =>
      intro m
      exact le_trans (le_max_left m p.score) (ih (max m p.score))

/-- Generalized-accumulator description of the `endGame` winner fold: the
fold keeps the running maximum and the ids of the already-seen players
attaining it. -/
theorem tally_fold_spec (ps : List GamePlayer) :
    ∀ (ids : List String) (m : Nat),
      ps.foldl
        (fun winners p =>
          if winners.2 < p.score then ([p._id], p.score)
          else if p.score = winners.2 then (winners.1 ++ [p._id], winners.2)
          else winners) (ids, m)
      = ((if ps.foldl (fun a p => max a p.score) m = m then ids else [])
          ++ (ps.filter fun p =>
                p.score = ps.foldl (fun a p => max a p.score) m).map
              (fun p => p._id),
         ps.foldl (fun a p => max a p.score) m) := by
  induction ps with
  | nil => intro ids m; simp
  | cons p rest ih =>
      intro ids m
      simp only [List.foldl_cons, List.filter_cons]
      by_cases h1 : m < p.score
      · have hmx : max m p.score = p.score := max_eq_right (le_of_lt h1)
        have hMp : p.score ≤ rest.foldl (fun a p => max a p.score) p.score :=
          foldl_max_le_init rest p.score
        have hMm : ¬ rest.foldl (fun a p => max a p.score) p.score = m := by
          intro hEq; rw [hEq] at hMp; exact absurd (lt_of_lt_of_le h1 hMp) (lt_irrefl m)
        simp only [if_pos h1, hmx]
        rw [ih]
        simp only [if_neg hMm, List.nil_append]
        by_cases h2 : p.score = rest.foldl (fun a p => max a p.score) p.score
        · simp [h2.symm]
        · have h2b : ¬ rest.foldl (fun a p => max a p.score) p.score = p.score :=
            fun hEq => h2 hEq.symm
          simp [h2b, h2]
      · by_cases h2 : p.score = m
        · have hmx : max m p.score = m := max_eq_left (le_of_not_lt h1)
          simp only [if_neg h1, if_pos h2, hmx]
          rw [ih]
          by_cases hM : rest.foldl (fun a p => max a p.score) m = m
          · have hpM : p.score = rest.foldl (fun a p => max a p.score) m := by
              rw [hM]; exact h2
            simp [hM, hpM, List.append_assoc]
          · have hlt : m < rest.foldl (fun a p => max a p.score) m :=
              lt_of_le_of_ne (foldl_max_le_init rest m) (fun hEq => hM hEq.symm)
            have hpM : ¬ p.score = rest.foldl (fun a p => max a p.score) m := by
              intro hEq; omega
            simp [hM, hpM]
        · have hlt : p.score < m :=
            lt_of_le_of_ne (le_of_not_lt h1) h2
          have hmx : max m p.score = m := max_eq_left (le_of_lt hlt)
          simp only [if_neg h1, if_neg h2, hmx]
          rw [ih]
          have hpM : ¬ p.score = rest.foldl (fun a p => max a p.score) m := by
            intro hEq
            have := foldl_max_le_init rest m
            omega
          simp [hpM]

/-- `tallyWinners` returns exactly the ids of the maximum-score players, in
player order, together with that maximum. -/
theorem tallyWinners_eq (ps : List GamePlayer) :
    tallyWinners ps
      = ((ps.filter fun p => p.score = maxScore ps).map (fun p => p._id),
         maxScore ps) := by
  unfold tallyWinners maxScore
  rw [tally_fold_spec]
  simp

/-- C7. End-game: when some player's score has reached `target`, the next
entry into turn-setup (`handleNextTurn`) goes directly to `endGame` — no new
round is started — and the announced winners are exactly the players whose
score equals the maximum score, ties included. -/
theorem c7_target_reached_ends_game (game : GameInterface) (resolve : String → Card)
    (bIdx : Nat) (idxss : List (List Nat))
    (h : ∃ p ∈ game.players, game.target ≤ p.score) :
    handleNextTurn game resolve bIdx idxss = Sum.inl (endGame game)
    ∧ (endGame game).state = GameState.ended
    ∧ (endGame game).winner
        = (game.players.filter fun p => p.score = maxScore game.players).map
            fun p => p._id := by
  have hb : (game.players.any fun p => game.target ≤ p.score) = true := by
    rw [List.any_eq_true]
    rcases h with ⟨p, hp, hs⟩
    exact ⟨p, hp, by simpa using hs⟩
  refine ⟨?_, rfl, ?_⟩
  · simp [handleNextTurn, hb]
  · simp [endGame, tallyWinners_eq]

/-- Witness for C7: target 2 with scores 2, 1, 2 — the game ends with the two
max-score players as winners. -/
theorem c7_target_reached_ends_game_witness :
    (let g : GameInterface :=
       ⟨"g4", [⟨"a", 2, false, []⟩, ⟨"b", 1, false, []⟩, ⟨"c", 2, false, []⟩],
        GameState.turnSetup, [], [], [], ⟨none, none, 3⟩, [], 2⟩
     let resolve : String → Card := fun s => ⟨s, "", "black", none⟩
     (∃ p ∈ g.players, g.target ≤ p.score)
     ∧ (handleNextTurn g resolve 0 [] = Sum.inl (endGame g)
        ∧ (endGame g).state = GameState.ended
        ∧ (endGame g).winner
            = (g.players.filter fun p => p.score = maxScore g.players).map
                fun p => p._id)) :=
  ⟨by decide, c7_target_reached_ends_game _ _ 0 [] (by decide)⟩

/-- C6. Winner selection: `onWinnerSelected` rejects a non-czar caller and
rejects outside `SELECTING_WINNER` (both before any mutation); with the czar
calling in `SELECTING_WINNER` and the winner's submission on record, it
returns that submission (order preserved) and bumps exactly the winner's
score by exactly 1, leaving every other player untouched. -/
theorem c6_winner_selection (game : GameInterface) (winner clientId : String)
    (cs : List String)
    (hcz : game.turnData.czar = some clientId)
    (hst : game.gameState = GameState.selectingWinner)
    (hsub : game.selectedCards.find? (fun e => e.1 = winner) = some (winner, cs)) :
    (∀ g : GameInterface, ∀ w c : String, ¬ g.turnData.czar = some c →
        onWinnerSelected g w c
          = Except.error "Only the czar is allowed to select the winner")
    ∧ (∀ g : GameInterface, ∀ w c : String, g.turnData.czar = some c →
        ¬ g.gameState = GameState.selectingWinner →
        onWinnerSelected g w c
          = Except.error "This is not the correct round to select a winner")
    ∧ ∃ r : WinnerResult, onWinnerSelected game winner clientId = Except.ok r
        ∧ r.winningCards = some cs
        ∧ (∀ p ∈ game.players, ¬ p._id = winner → p ∈ r.players)
        ∧ (∀ p ∈ game.players, p._id = winner →
            { p with score := p.score + 1 } ∈ r.players)
        ∧ (∀ i : Nat, r.players[i]?
            = (game.players[i]?).map fun p =>
                if p._id = winner then { p with score := p.score + 1 } else p) := by
  refine ⟨?_, ?_, ?_⟩
  · intro g w c hc
    simp [onWinnerSelected, hc]
  · intro g w c hc hs
    simp [onWinnerSelected, hc, hs]
  · have hok : onWinnerSelected game winner clientId = Except.ok
        { players := game.players.map fun p =>
            if p._id = winner then { p with score := p.score + 1 } else p,
          turns := game.turns ++
            [{ czar := game.turnData.czar, turn := game.turnData.turn,
               state := GameState.turnSetup, winner := some winner,
               errorMessage := none }],
          winner := winner,
          winningCards := selectWinner game.selectedCards winner,
          state := GameState.turnSetup } := by
      simp [onWinnerSelected, hcz, hst]
    refine ⟨_, hok, ?_, ?_, ?_, ?_⟩
    · simp [selectWinner, hsub]
    · intro p hp hne
      exact List.mem_map.2 ⟨p, hp, by simp [hne]⟩
    · intro p hp he
      exact List.mem_map.2 ⟨p, hp, by simp [he]⟩
    · intro i
      simp [List.getElem?_map]

/-- Witness for C6: czar `"j"` picks `"a"`, whose two-card submission is on
record; `"a"` scores the round's point. -/
theorem c6_winner_selection_witness :
    (let g : GameInterface :=
       ⟨"g5", [⟨"j", 0, true, []⟩, ⟨"a", 1, false, []⟩, ⟨"b", 0, false, []⟩],
        GameState.selectingWinner, [], [], [],
        ⟨some "j", none, 2⟩, [("a", ["w1", "w2"]), ("b", ["w3", "w4"])], 5⟩
     ∃ r : WinnerResult, onWinnerSelected g "a" "j" = Except.ok r
        ∧ r.winningCards = some ["w1", "w2"]
        ∧ (∀ p ∈ g.players, ¬ p._id = "a" → p ∈ r.players)
        ∧ (∀ p ∈ g.players, p._id = "a" →
            { p with score := p.score + 1 } ∈ r.players)
        ∧ (∀ i : Nat, r.players[i]?
            = (g.players[i]?).map fun p =>
                if p._id = "a" then { p with score := p.score + 1 } else p)) :=
  (c6_winner_selection _ "a" "j" ["w1", "w2"]
    (by decide) (by decide) (by decide)).2.2

/-- C10. No submission check on the chosen winner: with the czar calling in
`SELECTING_WINNER`, a `winner` id that has no entry in `selectedCards`
(including an id that is not a player at all) is NOT rejected — the round is
still pushed to the turns history with `state: TURN_SETUP`, the winning cards
are `undefined`, and a score is bumped only when the id happens to be a
current player. -/
theorem c10_winner_without_submission (game : GameInterface)
    (winner clientId : String)
    (hcz : game.turnData.czar = some clientId)
    (hst : game.gameState = GameState.selectingWinner)
    (hnone : game.selectedCards.find? (fun e => e.1 = winner) = none) :
    ∃ r : WinnerResult, onWinnerSelected game winner clientId = Except.ok r
      ∧ r.state = GameState.turnSetup
      ∧ r.turns = game.turns ++
          [{ czar := game.turnData.czar, turn := game.turnData.turn,
             state := GameState.turnSetup, winner := some winner,
             errorMessage := none }]
      ∧ r.winningCards = none
      ∧ ((∀ p ∈ game.players, ¬ p._id = winner) → r.players = game.players)
      ∧ (∀ p ∈ game.players, p._id = winner →
          { p with score := p.score + 1 } ∈ r.players) := by
  have hok : onWinnerSelected game winner clientId = Except.ok
      { players := game.players.map fun p =>
          if p._id = winner then { p with score := p.score + 1 } else p,
        turns := game.turns ++
          [{ czar := game.turnData.czar, turn := game.turnData.turn,
             state := GameState.turnSetup, winner := some winner,
             errorMessage := none }],
        winner := winner,
        winningCards := selectWinner game.selectedCards winner,
        state := GameState.turnSetup } := by
    simp [onWinnerSelected, hcz, hst]
  refine ⟨_, hok, rfl, rfl, ?_, ?_, ?_⟩
  · simp [selectWinner, hnone]
  · intro hall
    have : (game.players.map fun p =>
        if p._id = winner then { p with score := p.score + 1 } else p)
        = game.players.map id := by
      apply List.map_congr_left
      intro p hp
      simp [hall p hp]
    simpa using this
  · intro p hp he
    exact List.mem_map.2 ⟨p, hp, by simp [he]⟩

/-- Witness for C10: the czar picks `"ghost"`, an id that never submitted and
is not even a player; the call succeeds, the round is recorded, and no score
changes. -/
theorem c10_winner_without_submission_witness :
    (let g : GameInterface :=
       ⟨"g6", [⟨"j", 0, true, []⟩, ⟨"a", 1, false, []⟩],
        GameState.selectingWinner, [], [], [],
        ⟨some "j", none, 2⟩, [("a", ["w1"])], 5⟩
     ∃ r : WinnerResult, onWinnerSelected g "ghost" "j" = Except.ok r
      ∧ r.state = GameState.turnSetup
      ∧ r.turns = g.turns ++
          [{ czar := g.turnData.czar, turn := g.turnData.turn,
             state := GameState.turnSetup, winner := some "ghost",
             errorMessage := none }]
      ∧ r.winningCards = none
      ∧ ((∀ p ∈ g.players, ¬ p._id = "ghost") → r.players = g.players)
      ∧ (∀ p ∈ g.players, p._id = "ghost" →
          { p with score := p.score + 1 } ∈ r.players)) :=
  c10_winner_without_submission _ "ghost" "j" (by decide) (by decide) (by decide)

/-- C2 counterexample: the judging timeout armed during `SELECTING_WINNER`
runs `handleNoWinner`, which checks nothing about the current state — fired
against a game already advanced to `TURN_SETUP` it appends a second turn
record instead of being a no-op. -/
theorem c2_stale_timer_not_noop :
    (let g : GameInterface :=
       ⟨"g2", [⟨"a", 0, false, []⟩, ⟨"b", 0, false, []⟩], GameState.turnSetup,
        [], [], [], ⟨some "a", none, 3⟩, [], 5⟩
     ¬ g.gameState = GameState.selectingWinner
     ∧ ¬ handleNoWinner g
          (some "The Czar did not pick a winner! They have failed us all...") = g
     ∧ (handleNoWinner g
          (some "The Czar did not pick a winner! They have failed us all...")).turns.length
         = g.turns.length + 1) := by
  decide

/-- C2 amended: a fired `setGameTimeout` callback does re-read the persisted
game (`games.get`) rather than using a captured snapshot, and the externally
triggered `onWinnerSelected` does reject on an unexpected state — but the
timer handler `handleNoWinner` performs no expected-state guard: it appends a
turn record and transitions to `TURN_SETUP` whatever the current state, so a
stale timer fire is a second transition, not a no-op. -/
theorem c2_reread_but_unguarded (fetch : String → GameInterface) (gameId : String)
    (cb : GameInterface → GameInterface) (game : GameInterface)
    (reason : Option String) (w c : String)
    (hstale : ¬ game.gameState = GameState.selectingWinner) :
    setGameTimeoutFire fetch gameId cb = cb (fetch gameId)
    ∧ (handleNoWinner game reason).turns.length = game.turns.length + 1
    ∧ (handleNoWinner game reason).gameState = GameState.turnSetup
    ∧ (game.turnData.czar = some c →
        onWinnerSelected game w c
          = Except.error "This is not the correct round to select a winner") := by
  refine ⟨rfl, ?_, rfl, ?_⟩
  · simp [handleNoWinner]
  · intro hc
    simp [onWinnerSelected, hc, hstale]

/-- Witness for the amended C2 at a concrete stale game. -/
theorem c2_reread_but_unguarded_witness :
    (let g : GameInterface :=
       ⟨"g3", [⟨"a", 0, true, []⟩], GameState.turnSetup, [], [], [],
        ⟨some "a", none, 2⟩, [], 5⟩
     ¬ g.gameState = GameState.selectingWinner
     ∧ (setGameTimeoutFire (fun _ => g) "g3" (fun x => handleNoWinner x none)
          = (fun x => handleNoWinner x none) ((fun _ => g) "g3")
        ∧ (handleNoWinner g none).turns.length = g.turns.length + 1
        ∧ (handleNoWinner g none).gameState = GameState.turnSetup
        ∧ (g.turnData.czar = some "a" →
            onWinnerSelected g "b" "a"
              = Except.error "This is not the correct round to select a winner"))) :=
  ⟨by decide,
    c2_reread_but_unguarded (fun _ => _) "g3" _ _ none "b" "a" (by decide)⟩

/-- Writing back the element already at a position leaves the list
unchanged. -/
theorem set_self_of_getElem? {α : Type _} :
    ∀ (l : List α) (n : Nat) (a : α), l[n]? = some a → l.set n a = l
  | [], _, _ => by simp
  | x :: xs, 0, a => by
      intro h
      simp at h
      simp [h]
  | x :: xs, n + 1, a => by
      intro h
      simp at h
      simp [set_self_of_getElem? xs n a h]

/-- With pairwise-distinct ids, `findIndex` of the id of the player at
position `j` is `j` itself. -/
theorem findIdx_id_of_getElem? (ps : List GamePlayer) :
    ∀ (j : Nat) (pj : GamePlayer),
      (ps.map fun p => p._id).Nodup → ps[j]? = some pj →
      (ps.findIdx fun p => p._id = pj._id) = j := by
  induction ps with
  | nil => intro j pj _ h; simp at h
  | cons q rest ih =>
      intro j pj hnd hj
      rcases j with _ | j
      · simp at hj
        subst hj
        simp [List.findIdx_cons]
      · simp at hj
        have hmem : pj ∈ rest := List.getElem?_mem hj
        rw [List.map_cons, List.nodup_cons] at hnd
        have hne : ¬ q._id = pj._id := by
          intro hEq
          exact hnd.1 (hEq ▸ List.mem_map_of_mem (fun p => p._id) hmem)
        rw [List.findIdx_cons]
        simp [hne, ih j pj hnd.2 hj]

/-- `findIndex` of an id depends only on the id sequence. -/
theorem findIdx_id_congr (pc : String) :
    ∀ (ps qs : List GamePlayer),
      ps.map (fun p => p._id) = qs.map (fun p => p._id) →
      (ps.findIdx fun p => p._id = pc) = qs.findIdx fun p => p._id = pc := by
  intro ps
  induction ps with
  | nil => intro qs h; cases qs <;> simp_all
  | cons p rest ih =>
      intro qs h
      cases qs with
      | nil => simp at h
      | cons q qrest =>
          simp at h
          rw [List.findIdx_cons, List.findIdx_cons, h.1, ih qrest h.2]

/-- The new-czar index depends only on the id sequence. -/
theorem newCzarIdx_congr (ps qs : List GamePlayer) (prev : Option String)
    (h : ps.map (fun p => p._id) = qs.map fun p => p._id) :
    newCzarIdx ps prev = newCzarIdx qs prev := by
  cases prev with
  | none => rfl
  | some pc =>
      have hlen : ps.length = qs.length := by
        have := congrArg List.length h
        simpa using this
      simp only [newCzarIdx]
      rw [findIdx_id_congr pc ps qs h, hlen]

/-- For a non-empty player list the new-czar index is in range. -/
theorem newCzarIdx_lt (ps : List GamePlayer) (hne : ps ≠ []) (prev : Option String) :
    newCzarIdx ps prev < ps.length := by
  have hpos : 0 < ps.length := List.length_pos.2 hne
  cases prev with
  | none => simpa [newCzarIdx] using hpos
  | some pc =>
      simp only [newCzarIdx]
      by_cases h : ps.findIdx (fun p => p._id = pc) + 1 + 1 > ps.length
      · rw [if_pos h]; exact hpos
      · rw [if_neg h]; omega

/-- Previous czar found at a non-final position `j`: the new index is
`j + 1`. -/
theorem newCzarIdx_next (ps : List GamePlayer) (j : Nat) (pj : GamePlayer)
    (hnd : (ps.map fun p => p._id).Nodup) (hj : ps[j]? = some pj)
    (hlt : j + 1 < ps.length) :
    newCzarIdx ps (some pj._id) = j + 1 := by
  simp only [newCzarIdx]
  rw [findIdx_id_of_getElem? ps j pj hnd hj, if_neg]
  omega

/-- Previous czar at the last position: wrap to index `0`. -/
theorem newCzarIdx_wrap (ps : List GamePlayer) (pj : GamePlayer)
    (hnd : (ps.map fun p => p._id).Nodup)
    (hj : ps[ps.length - 1]? = some pj) (hne : ps ≠ []) :
    newCzarIdx ps (some pj._id) = 0 := by
  have hpos : 0 < ps.length := List.length_pos.2 hne
  simp only [newCzarIdx]
  rw [findIdx_id_of_getElem? ps (ps.length - 1) pj hnd hj, if_pos]
  omega

/-- Previous czar no longer present: `findIndex` misses and the index wraps
to `0`. -/
theorem newCzarIdx_absent (ps : List GamePlayer) (pc : String)
    (h : ∀ p ∈ ps, ¬ p._id = pc) :
    newCzarIdx ps (some pc) = 0 := by
  simp only [newCzarIdx]
  rw [List.findIdx_eq_length_of_false (by intro x hx; simpa using h x hx), if_pos]
  omega

/-- The id returned by `pickCzar` is the id of the player at the new-czar
index. -/
theorem pickCzar_snd (turns : List TurnRec) (ps : List GamePlayer) :
    (pickCzar turns ps).2
      = (ps[newCzarIdx ps (prevCzarOf turns)]?).map fun p => p._id := by
  simp only [pickCzar]
  cases h : ps[newCzarIdx ps (prevCzarOf turns)]? <;> simp [h]

/-- `pickCzar` only flips a flag: the id sequence is unchanged. -/
theorem pickCzar_fst_ids (turns : List TurnRec) (ps : List GamePlayer) :
    ((pickCzar turns ps).1.map fun p => p._id) = ps.map fun p => p._id := by
  simp only [pickCzar]
  cases h : ps[newCzarIdx ps (prevCzarOf turns)]? with
  | none => simp
  | some sel =>
      simp only [List.map_set]
      apply set_self_of_getElem?
      simp [List.getElem?_map, h]

/-- Setting the flag of the player at position `i` in an all-false list makes
that player the unique flagged one. -/
theorem filter_czar_set (l : List GamePlayer) :
    ∀ (i : Nat) (sel : GamePlayer),
      (∀ p ∈ l, p.isCzar = false) → l[i]? = some sel →
      (((l.set i { sel with isCzar := true }).filter fun p => p.isCzar).map
        fun p => p._id) = [sel._id] := by
  induction l with
  | nil => intro i sel _ h; simp at h
  | cons q rest ih =>
      intro i sel hall hget
      rcases i with _ | i
      · simp at hget
        subst hget
        rw [List.set_cons_zero, List.filter_cons]
        simp only [show ({ q with isCzar := true } : GamePlayer).isCzar = true from rfl]
        have hrest : rest.filter (fun p => p.isCzar) = [] := by
          rw [List.filter_eq_nil_iff]
          intro a ha
          simp [hall a (List.mem_cons_of_mem q ha)]
        simp [hrest]
      · simp at hget
        have hq : q.isCzar = false := hall q (List.mem_cons_self q rest)
        rw [List.set_cons_succ, List.filter_cons]
        simp only [hq]
        simpa using ih i sel (fun p hp => hall p (List.mem_cons_of_mem q hp)) hget

/-- `dealWhiteCards` only changes the hand: id, flag and score survive. -/
theorem dealWhiteCards_fields (p : GamePlayer) (pool : List String)
    (idxs : List Nat) :
    ((dealWhiteCards p pool idxs).1._id = p._id)
    ∧ ((dealWhiteCards p pool idxs).1.isCzar = p.isCzar)
    ∧ ((dealWhiteCards p pool idxs).1.score = p.score) := by
  unfold dealWhiteCards
  by_cases h : 10 - p.cards.length = 0 <;> simp [h]

/-- Dealing to every player preserves each player's id and flag, in order. -/
theorem ensure_proj (ps : List GamePlayer) :
    ∀ (pool : List String) (idxss : List (List Nat)),
      ((ensurePlayersHaveCards ps pool idxss).1.map fun p => (p._id, p.isCzar))
        = ps.map fun p => (p._id, p.isCzar) := by
  induction ps with
  | nil => intro pool idxss; rfl
  | cons p rest ih =>
      intro pool idxss
      simp only [ensurePlayersHaveCards, List.map_cons]
      have hd := dealWhiteCards_fields p pool (idxss.headD [])
      rw [ih]
      simp only [List.cons.injEq, Prod.mk.injEq, and_true]
      exact ⟨by simpa using hd.1, by simpa using hd.2.1⟩

/-- Filtering on the flag and projecting the id factors through the
(id, flag) projection. -/
theorem filter_map_proj (l : List GamePlayer) :
    ((l.filter fun p => p.isCzar).map fun p => p._id)
      = (((l.map fun p => (p._id, p.isCzar)).filter fun q => q.2).map
          fun q => q.1) := by
  induction l with
  | nil => rfl
  | cons p rest ih =>
      rw [List.map_cons, List.filter_cons, List.filter_cons]
      by_cases hc : p.isCzar = true <;> simp [hc, ih]

/-- `startTurn` preserves the id sequence of the player list. -/
theorem startTurn_ids (game : GameInterface) (resolve : String → Card)
    (bIdx : Nat) (idxss : List (List Nat)) :
    ((startTurn game resolve bIdx idxss).players.map fun p => p._id)
      = game.players.map fun p => p._id := by
  simp only [startTurn]
  have h1 := congrArg (List.map Prod.fst)
    (ensure_proj (pickCzar game.turns
        (game.players.map fun p => { p with isCzar := false })).1
      game.whiteCards idxss)
  simp only [List.map_map] at h1
  have h2 : ((pickCzar game.turns
      (game.players.map fun p => { p with isCzar := false })).1.map
        fun p => p._id)
      = game.players.map fun p => p._id := by
    rw [pickCzar_fst_ids]
    simp [List.map_map]
  calc ((ensurePlayersHaveCards
          (pickCzar game.turns
            (game.players.map fun p => { p with isCzar := false })).1
          game.whiteCards idxss).1.map fun p => p._id)
      = ((pickCzar game.turns
          (game.players.map fun p => { p with isCzar := false })).1.map
            fun p => p._id) := h1
    _ = game.players.map fun p => p._id := h2

/-- The czar `startTurn` stores is the one `pickCzar` returns on the
flag-reset players. -/
theorem startTurn_czar (game : GameInterface) (resolve : String → Card)
    (bIdx : Nat) (idxss : List (List Nat)) :
    (startTurn game resolve bIdx idxss).turnData.czar
      = (pickCzar game.turns
          (game.players.map fun p => { p with isCzar := false })).2 := rfl

/-- `startTurn` does not touch the turns history. -/
theorem startTurn_turns (game : GameInterface) (resolve : String → Card)
    (bIdx : Nat) (idxss : List (List Nat)) :
    (startTurn game resolve bIdx idxss).turns = game.turns := rfl

/-- A completed round preserves the id sequence of the player list. -/
theorem roundStep_ids (g : GameInterface) (r : String → Card) (b : Nat)
    (i : List (List Nat)) :
    ((roundStep g r b i).players.map fun p => p._id)
      = g.players.map fun p => p._id := by
  show ((startTurn g r b i).players.map fun p => p._id) = _
  exact startTurn_ids g r b i

/-- Iterated rounds preserve the id sequence of the player list. -/
theorem roundsFrom_ids (g : GameInterface) (r : String → Card) (b : Nat)
    (i : List (List Nat)) :
    ∀ n : Nat, ((roundsFrom g r b i n).players.map fun p => p._id)
      = g.players.map fun p => p._id
  | 0 => rfl
  | n + 1 => by
      show ((roundStep (roundsFrom g r b i n) r b i).players.map fun p => p._id) = _
      rw [roundStep_ids]
      exact roundsFrom_ids g r b i n

/-- After round `n` completes, the last turns-history entry names that
round's czar. -/
theorem prevCzar_roundsFrom_succ (g : GameInterface) (r : String → Card)
    (b : Nat) (i : List (List Nat)) (n : Nat) :
    prevCzarOf (roundsFrom g r b i (n + 1)).turns = czarOfRound g r b i n := by
  show prevCzarOf (roundStep (roundsFrom g r b i n) r b i).turns = _
  unfold roundStep prevCzarOf
  rw [List.getLast?_concat]
  rfl

/-- The czar of round `n` is the player at the new-czar index computed over
the original id sequence from the previous round's recorded czar. -/
theorem czarOfRound_eq_idx (g : GameInterface) (r : String → Card) (b : Nat)
    (i : List (List Nat)) (n : Nat) :
    czarOfRound g r b i n
      = (g.players[newCzarIdx g.players
          (prevCzarOf (roundsFrom g r b i n).turns)]?).map fun p => p._id := by
  unfold czarOfRound
  rw [startTurn_czar, pickCzar_snd]
  have hids : (((roundsFrom g r b i n).players.map
        fun p => { p with isCzar := false }).map fun p => p._id)
      = g.players.map fun p => p._id := by
    rw [List.map_map]
    exact roundsFrom_ids g r b i n
  rw [newCzarIdx_congr _ g.players _ hids]
  have h1 : ∀ (l : List GamePlayer) (k : Nat),
      (l[k]?).map (fun p => p._id) = (l.map fun p => p._id)[k]? := by
    intro l k
    simp [List.getElem?_map]
  rw [h1, h1, hids]

/-- Judge rotation over consecutive rounds: starting from an empty turns
history, round `n` (0-based, `n` below the player count) is judged by the
player at position `n`. -/
theorem czar_rotation (ps : List GamePlayer) (hnd : (ps.map fun p => p._id).Nodup)
    (g : GameInterface) (r : String → Card) (b : Nat) (i : List (List Nat))
    (hp : g.players = ps) (ht : g.turns = []) :
    ∀ n : Nat, n < ps.length →
      czarOfRound g r b i n = (ps[n]?).map fun p => p._id := by
  intro n
  induction n with
  | zero =>
      intro _
      rw [czarOfRound_eq_idx, hp]
      have hprev : prevCzarOf (roundsFrom g r b i 0).turns = none := by
        show prevCzarOf g.turns = none
        rw [ht]
        rfl
      rw [hprev]
      simp only [newCzarIdx]
  | succ n ih =>
      intro hlt
      have hn : n < ps.length := Nat.lt_of_succ_lt hlt
      rw [czarOfRound_eq_idx, hp, prevCzar_roundsFrom_succ, ih hn]
      obtain ⟨pn, hpn⟩ : ∃ pn, ps[n]? = some pn :=
        ⟨ps.get ⟨n, hn⟩, List.getElem?_eq_getElem hn⟩
      rw [hpn]
      simp only [Option.map_some']
      rw [newCzarIdx_next ps n pn hnd hpn hlt]

/-- C4. Judge rotation, as `pickCzar`/`startTurn` implement it: with no
previous czar the first player (index 0) is picked; with the previous czar at
a non-final position the next player is picked; with the previous czar last
or absent the choice wraps to the first player; after `startTurn` exactly the
picked czar carries `isCzar = true`; and over `k` consecutive rounds on a
fixed `k`-player set each player judges exactly once, in player order. -/
theorem c4_judge_rotation (ps : List GamePlayer) (hne : ps ≠ [])
    (hnd : (ps.map fun p => p._id).Nodup) :
    (∀ turns : List TurnRec, prevCzarOf turns = none →
      (pickCzar turns ps).2 = (ps[0]?).map fun p => p._id)
    ∧ (∀ turns : List TurnRec, ∀ j : Nat, ∀ pj : GamePlayer,
        ps[j]? = some pj → j + 1 < ps.length →
        prevCzarOf turns = some pj._id →
        (pickCzar turns ps).2 = (ps[j + 1]?).map fun p => p._id)
    ∧ (∀ turns : List TurnRec, ∀ pj : GamePlayer,
        ps[ps.length - 1]? = some pj → prevCzarOf turns = some pj._id →
        (pickCzar turns ps).2 = (ps[0]?).map fun p => p._id)
    ∧ (∀ turns : List TurnRec, ∀ pc : String,
        (∀ p ∈ ps, ¬ p._id = pc) → prevCzarOf turns = some pc →
        (pickCzar turns ps).2 = (ps[0]?).map fun p => p._id)
    ∧ (∀ game : GameInterface, ∀ resolve : String → Card, ∀ bIdx : Nat,
        ∀ idxss : List (List Nat), game.players = ps →
        ∃ cz : String,
          (startTurn game resolve bIdx idxss).turnData.czar = some cz
          ∧ (((startTurn game resolve bIdx idxss).players.filter
                fun p => p.isCzar).map fun p => p._id) = [cz])
    ∧ (∀ game : GameInterface, ∀ resolve : String → Card, ∀ bIdx : Nat,
        ∀ idxss : List (List Nat), ∀ n : Nat,
        game.players = ps → game.turns = [] → n < ps.length →
        czarOfRound game resolve bIdx idxss n = (ps[n]?).map fun p => p._id) := by
  refine ⟨?_, ?_, ?_, ?_, ?_, ?_⟩
  · intro turns hl
    rw [pickCzar_snd, hl]
    simp only [newCzarIdx]
  · intro turns j pj hj hlt hl
    rw [pickCzar_snd, hl, newCzarIdx_next ps j pj hnd hj hlt]
  · intro turns pj hj hl
    rw [pickCzar_snd, hl, newCzarIdx_wrap ps pj hnd hj hne]
  · intro turns pc hall hl
    rw [pickCzar_snd, hl, newCzarIdx_absent ps pc hall]
  · intro game resolve bIdx idxss hg
    have hreset : (game.players.map fun p => { p with isCzar := false }) ≠ [] := by
      intro hEq
      rw [List.map_eq_nil_iff] at hEq
      exact hne (hg ▸ hEq)
    have hlt := newCzarIdx_lt
      (game.players.map fun p => { p with isCzar := false }) hreset
      (prevCzarOf game.turns)
    obtain ⟨sel, hsel⟩ : ∃ sel,
        (game.players.map fun p => { p with isCzar := false })[newCzarIdx
          (game.players.map fun p => { p with isCzar := false })
          (prevCzarOf game.turns)]? = some sel :=
      ⟨_, List.getElem?_eq_getElem hlt⟩
    have hpc : pickCzar game.turns
        (game.players.map fun p => { p with isCzar := false })
        = ((game.players.map fun p => { p with isCzar := false }).set
            (newCzarIdx (game.players.map fun p => { p with isCzar := false })
              (prevCzarOf game.turns))
            { sel with isCzar := true }, some sel._id) := by
      simp only [pickCzar, hsel]
    refine ⟨sel._id, ?_, ?_⟩
    · rw [startTurn_czar, hpc]
    · have hall : ∀ p ∈ (game.players.map fun p => { p with isCzar := false }),
          p.isCzar = false := by
        intro p hp
        rcases List.mem_map.1 hp with ⟨q, _, hq⟩
        rw [← hq]
      have hplayers : (startTurn game resolve bIdx idxss).players
          = (ensurePlayersHaveCards
              (pickCzar game.turns
                (game.players.map fun p => { p with isCzar := false })).1
              game.whiteCards idxss).1 := rfl
      rw [hplayers, filter_map_proj,
        ensure_proj (pickCzar game.turns
          (game.players.map fun p => { p with isCzar := false })).1
          game.whiteCards idxss,
        ← filter_map_proj, hpc]
      exact filter_czar_set _ _ sel hall hsel
  · intro game resolve bIdx idxss n hg ht hn
    exact czar_rotation ps hnd game resolve bIdx idxss hg ht n hn

/-- Witness for C4 at the concrete 3-player list `a, b, c`. -/
theorem c4_judge_rotation_witness :
    (let ps : List GamePlayer :=
       [⟨"a", 0, false, []⟩, ⟨"b", 0, false, []⟩, ⟨"c", 0, false, []⟩]
     (ps ≠ [] ∧ (ps.map fun p => p._id).Nodup)
     ∧ ((∀ turns : List TurnRec, prevCzarOf turns = none →
          (pickCzar turns ps).2 = (ps[0]?).map fun p => p._id)
        ∧ (∀ turns : List TurnRec, ∀ j : Nat, ∀ pj : GamePlayer,
            ps[j]? = some pj → j + 1 < ps.length →
            prevCzarOf turns = some pj._id →
            (pickCzar turns ps).2 = (ps[j + 1]?).map fun p => p._id)
        ∧ (∀ turns : List TurnRec, ∀ pj : GamePlayer,
            ps[ps.length - 1]? = some pj → prevCzarOf turns = some pj._id →
            (pickCzar turns ps).2 = (ps[0]?).map fun p => p._id)
        ∧ (∀ turns : List TurnRec, ∀ pc : String,
            (∀ p ∈ ps, ¬ p._id = pc) → prevCzarOf turns = some pc →
            (pickCzar turns ps).2 = (ps[0]?).map fun p => p._id)
        ∧ (∀ game : GameInterface, ∀ resolve : String → Card, ∀ bIdx : Nat,
            ∀ idxss : List (List Nat), game.players = ps →
            ∃ cz : String,
              (startTurn game resolve bIdx idxss).turnData.czar = some cz
              ∧ (((startTurn game resolve bIdx idxss).players.filter
                    fun p => p.isCzar).map fun p => p._id) = [cz])
        ∧ (∀ game : GameInterface, ∀ resolve : String → Card, ∀ bIdx : Nat,
            ∀ idxss : List (List Nat), ∀ n : Nat,
            game.players = ps → game.turns = [] → n < ps.length →
            czarOfRound game resolve bIdx idxss n
              = (ps[n]?).map fun p => p._id))) :=
  ⟨⟨by decide, by decide⟩, c4_judge_rotation _ (by decide) (by decide)⟩
